import Mathlib

/-!
# Verification of `bot.py` — a two-state dip-buy / rise-sell trading bot

Shallow embedding of the decision logic of `src/bot.py`. Prices and
amounts are modelled as exact rationals (`ℚ`); Python dicts keyed by coin
symbol are modelled as association lists `List (String × ℚ)` (a Python
dict never holds a duplicate key, so key-uniqueness appears as an explicit
`NoDupKeys` hypothesis where a proof needs it). The exchange (ccxt) is an
external collaborator and is modelled by oracles for order success,
market-metadata lookup success and the market's amount precision.
Python exceptions that the code does *not* catch (`KeyError` from
`state['buy_prices'][coin]`, `ZeroDivisionError` from the two delta
divisions) are modelled explicitly; exceptions raised inside the two
`try:` blocks are caught by the code and appear as failed order attempts.
-/

namespace Bot

/-! ## Configuration constants (bot.py lines 24–28) -/

/-- `AMOUNT_TO_BUY = 5` — $5 worth of crypto per buy. -/
def AMOUNT_TO_BUY : ℚ := 5

/-- `PRICE_DROP_THRESHOLD = 0.05` — 5% drop triggers a buy. -/
def PRICE_DROP_THRESHOLD : ℚ := 5 / 100

/-- `PRICE_RISE_THRESHOLD = 0.10` — 10% rise triggers a sell. -/
def PRICE_RISE_THRESHOLD : ℚ := 10 / 100

/-- `COINS` — the monitored asset list. -/
def COINS : List String := ["BTC", "TON", "ETH", "XRP", "ADA", "DOGE"]

/-! ## Python dict operations on association lists

A Python dict is insertion-ordered with unique keys. `lookupQ` is `d[k]`
read / `k in d`, `insertQ` is `d[k] = v` (update in place if the key is
present, append otherwise), `eraseQ` is `del d[k]`. -/

def lookupQ (k : String) : List (String × ℚ) → Option ℚ
  | [] => none
  | (k', v) :: rest => if k = k' then some v else lookupQ k rest

def insertQ (k : String) (v : ℚ) : List (String × ℚ) → List (String × ℚ)
  | [] => [(k, v)]
  | (k', v') :: rest =>
    if k = k' then (k', v) :: rest else (k', v') :: insertQ k v rest

def eraseQ (k : String) : List (String × ℚ) → List (String × ℚ)
  | [] => []
  | (k', v') :: rest => if k = k' then rest else (k', v') :: eraseQ k rest

/-- Keys of an association list are pairwise distinct — every list that
models a Python dict satisfies this by construction. -/
def NoDupKeys (m : List (String × ℚ)) : Prop := (m.map Prod.fst).Nodup

instance (m : List (String × ℚ)) : Decidable (NoDupKeys m) := by
  unfold NoDupKeys; infer_instance

/-! ## Data model (bot.py lines 50–54)

The persisted trading state: three parallel dicts keyed by coin symbol. -/

structure TradingState where
  holdings : List (String × ℚ)
  buy_prices : List (String × ℚ)
  reference_prices : List (String × ℚ)
deriving DecidableEq, Repr

/-! ## Exchange collaborator and uncaught Python errors -/

/-- The value of `market['precision']['amount']`: either a Python `int`,
or anything else (`None`, a float, …) which makes the
`isinstance(..., int)` test on line 107 fail. -/
inductive PrecVal where
  | intVal (p : ℤ)
  | nonInt
deriving DecidableEq, Repr

/-- The exchange, as the decision engine observes it in one cycle:
whether `load_markets()` / `markets[symbol]` / the precision access
succeed, what precision value they return, and whether each market
order call succeeds. -/
structure Exchange where
  marketLookupOk : String → Bool
  precisionOf : String → PrecVal
  buyOk : String → ℚ → Bool
  sellOk : String → ℚ → Bool

/-- Python exceptions that escape `check_trading_conditions` (they occur
outside the two `try:` blocks). -/
inductive PyErr where
  | keyError
  | zeroDivisionError
deriving DecidableEq, Repr

/-- A market order as submitted to the exchange
(`create_market_buy_order` / `create_market_sell_order`). -/
inductive Order where
  | buy (coin : String) (amount : ℚ)
  | sell (coin : String) (amount : ℚ)
deriving DecidableEq, Repr

/-- Result of running (part of) a decision cycle: the state after all
mutations performed so far (Python mutates `state` in place), the orders
submitted, and the exception that escaped, if any. -/
structure StepResult where
  state : TradingState
  orders : List Order
  error : Option PyErr
deriving DecidableEq, Repr

/-! ## round_amount (bot.py lines 75–78) -/

/-- `round_amount(amount, precision)`:
`factor = 10 ** precision; return math.floor(amount * factor + 0.5) / factor`. -/
def round_amount (amount : ℚ) (precision : ℤ) : ℚ :=
  let factor : ℚ := 10 ^ precision
  (⌊amount * factor + 1 / 2⌋ : ℚ) / factor

/-- Line 107: `market['precision']['amount'] if isinstance(..., int) else 8`. -/
def amountPrecision : PrecVal → ℤ
  | .intVal p => p
  | .nonInt => 8

/-! ## get_current_prices (bot.py lines 62–73)

The per-coin ticker fetch is an oracle `String → Option ℚ`; `none` means
`fetch_ticker` raised, which the code catches, logs and skips. -/

def get_current_prices (fetch : String → Option ℚ) : List String → List (String × ℚ)
  | [] => []
  | coin :: rest =>
    match fetch coin with
    | some p => (coin, p) :: get_current_prices fetch rest
    | none => get_current_prices fetch rest

/-! ## check_trading_conditions (bot.py lines 80–156) -/

/-- One iteration of the `for coin, price in current_prices.items()` loop
(bot.py lines 82–154).

* Lines 86–88: no reference price yet → record `price`, `continue`.
* Lines 91–128 (coin not held): `price_change = (price - ref) / ref`
  raises `ZeroDivisionError` if `ref == 0` (uncaught). On a qualifying
  drop the buy attempt runs inside `try:`; `AMOUNT_TO_BUY / price`
  raises there if `price == 0` (caught → no order), `load_markets()` /
  market lookup may raise (caught → no order), otherwise the rounded
  amount is submitted and on success the three mutations of lines
  117–121 run. Otherwise, lines 126–128 ratchet the reference down.
* Lines 132–154 (coin held): `state['buy_prices'][coin]` raises
  `KeyError` if absent (uncaught); the delta division raises
  `ZeroDivisionError` if `buy_price == 0` (uncaught). On a qualifying
  rise the recorded holding is submitted for sale inside `try:`; on
  success lines 147–151 delete the holding and reset the reference. -/
def stepCoin (ex : Exchange) (state : TradingState) (coin : String) (price : ℚ) :
    StepResult :=
  match lookupQ coin state.reference_prices with
  | none =>
    ⟨{ state with reference_prices := insertQ coin price state.reference_prices }, [], none⟩
  | some reference_price =>
    match lookupQ coin state.holdings with
    | none =>
      if reference_price = 0 then ⟨state, [], some .zeroDivisionError⟩
      else
        let price_change := (price - reference_price) / reference_price
        if price_change ≤ -PRICE_DROP_THRESHOLD then
          if price = 0 then ⟨state, [], none⟩
          else if ex.marketLookupOk coin = false then ⟨state, [], none⟩
          else
            let amount_in_coin := round_amount (AMOUNT_TO_BUY / price)
              (amountPrecision (ex.precisionOf coin))
            if ex.buyOk coin amount_in_coin then
              ⟨{ holdings := insertQ coin amount_in_coin state.holdings,
                 buy_prices := insertQ coin price state.buy_prices,
                 reference_prices := insertQ coin price state.reference_prices },
               [.buy coin amount_in_coin], none⟩
            else ⟨state, [.buy coin amount_in_coin], none⟩
        else if price < reference_price then
          ⟨{ state with reference_prices := insertQ coin price state.reference_prices },
           [], none⟩
        else ⟨state, [], none⟩
    | some holding_amount =>
      match lookupQ coin state.buy_prices with
      | none => ⟨state, [], some .keyError⟩
      | some buy_price =>
        if buy_price = 0 then ⟨state, [], some .zeroDivisionError⟩
        else
          let price_change := (price - buy_price) / buy_price
          if price_change ≥ PRICE_RISE_THRESHOLD then
            if ex.sellOk coin holding_amount then
              ⟨{ holdings := eraseQ coin state.holdings,
                 buy_prices := eraseQ coin state.buy_prices,
                 reference_prices := insertQ coin price state.reference_prices },
               [.sell coin holding_amount], none⟩
            else ⟨state, [.sell coin holding_amount], none⟩
          else ⟨state, [], none⟩

/-- `check_trading_conditions(exchange, state, current_prices)`: the loop
over the price dict's items. An exception escaping one iteration aborts
the loop (and later the process); mutations already performed stay, since
the Python code mutates `state` in place. -/
def check_trading_conditions (ex : Exchange) (state : TradingState) :
    List (String × ℚ) → StepResult
  | [] => ⟨state, [], none⟩
  | (coin, price) :: rest =>
    match stepCoin ex state coin price with
    | ⟨s', ords, some e⟩ => ⟨s', ords, some e⟩
    | ⟨s', ords, none⟩ =>
      let r := check_trading_conditions ex s' rest
      ⟨r.state, ords ++ r.orders, r.error⟩

/-! ## State persistence (bot.py lines 43–60)

`save_state` serialises the three dicts with `json.dump`; `load_state`
parses the file with `json.load` when it exists and otherwise returns the
empty initial state. The JSON document is modelled structurally: a tree
of numbers, strings and insertion-ordered objects (`json.dump` followed
by `json.load` reproduces the same tree). `load_state`'s argument is the
file content, `none` standing for a missing file. -/

inductive Json where
  | num (q : ℚ)
  | str (s : String)
  | obj (fields : List (String × Json))

def jsonLookup (k : String) : List (String × Json) → Option Json
  | [] => none
  | (k', v) :: rest => if k = k' then some v else jsonLookup k rest

/-- Encode one of the three price/amount dicts as a JSON object. -/
def encMap (m : List (String × ℚ)) : Json :=
  .obj (m.map fun p => (p.1, .num p.2))

/-- Read one of the three dicts back from its JSON object; `none` when
the document does not have the expected shape. -/
def decEntries : List (String × Json) → Option (List (String × ℚ))
  | [] => some []
  | (k, j) :: rest =>
    match j with
    | .num v =>
      match decEntries rest with
      | some tail => some ((k, v) :: tail)
      | none => none
    | _ => none

def decMap : Json → Option (List (String × ℚ))
  | .obj fields => decEntries fields
  | _ => none

/-- `save_state(state)` — the document `json.dump` writes:
`{"holdings": …, "buy_prices": …, "reference_prices": …}`. -/
def save_state (s : TradingState) : Json :=
  .obj [("holdings", encMap s.holdings),
        ("buy_prices", encMap s.buy_prices),
        ("reference_prices", encMap s.reference_prices)]

/-- `load_state()`: if the state file exists, parse it and read the three
dicts; otherwise start from the empty state of lines 50–54. -/
def load_state (file : Option Json) : Option TradingState :=
  match file with
  | none => some ⟨[], [], []⟩
  | some (.obj fields) =>
    match jsonLookup "holdings" fields, jsonLookup "buy_prices" fields,
          jsonLookup "reference_prices" fields with
    | some h, some b, some r =>
      match decMap h, decMap b, decMap r with
      | some hm, some bm, some rm => some ⟨hm, bm, rm⟩
      | _, _, _ => none
    | _, _, _ => none
  | some _ => none

/-! ## Lemmas about the dict operations -/

theorem lookupQ_insertQ_self (k : String) (v : ℚ) (m : List (String × ℚ)) :
    lookupQ k (insertQ k v m) = some v := by
  induction m with
  | nil => simp [insertQ, lookupQ]
  | cons p rest ih =>
    obtain ⟨k', v'⟩ := p
    by_cases h : k = k'
    · simp [insertQ, lookupQ, h]
    · simp [insertQ, lookupQ, h, ih]

theorem lookupQ_insertQ_ne (c k : String) (v : ℚ) (m : List (String × ℚ))
    (hck : c ≠ k) : lookupQ c (insertQ k v m) = lookupQ c m := by
  induction m with
  | nil => simp [insertQ, lookupQ, hck]
  | cons p rest ih =>
    obtain ⟨k', v'⟩ := p
    by_cases h : k = k'
    · subst h
      simp [insertQ, lookupQ, hck]
    · by_cases hc : c = k' <;> simp [insertQ, lookupQ, h, hc, ih]

theorem lookupQ_eq_none_of_not_mem_keys (k : String) (m : List (String × ℚ))
    (h : k ∉ m.map Prod.fst) : lookupQ k m = none := by
  induction m with
  | nil => simp [lookupQ]
  | cons p rest ih =>
    obtain ⟨k', v'⟩ := p
    simp only [List.map_cons, List.mem_cons] at h
    push_neg at h
    simp [lookupQ, h.1, ih h.2]

theorem lookupQ_eraseQ_self (k : String) (m : List (String × ℚ))
    (hm : NoDupKeys m) : lookupQ k (eraseQ k m) = none := by
  induction m with
  | nil => simp [eraseQ, lookupQ]
  | cons p rest ih =>
    obtain ⟨k', v'⟩ := p
    unfold NoDupKeys at hm
    simp only [List.map_cons, List.nodup_cons] at hm
    by_cases h : k = k'
    · subst h
      simpa [eraseQ] using lookupQ_eq_none_of_not_mem_keys k rest hm.1
    · simp [eraseQ, lookupQ, h, ih hm.2]

theorem lookupQ_eraseQ_ne (c k : String) (m : List (String × ℚ))
    (hck : c ≠ k) : lookupQ c (eraseQ k m) = lookupQ c m := by
  induction m with
  | nil => simp [eraseQ, lookupQ]
  | cons p rest ih =>
    obtain ⟨k', v'⟩ := p
    by_cases h : k = k'
    · subst h
      simp [eraseQ, lookupQ, hck]
    · by_cases hc : c = k' <;> simp [eraseQ, lookupQ, h, hc, ih]

theorem mem_keys_insertQ {c k : String} {v : ℚ} {m : List (String × ℚ)}
    (h : c ∈ (insertQ k v m).map Prod.fst) : c = k ∨ c ∈ m.map Prod.fst := by
  induction m with
  | nil => simpa [insertQ] using h
  | cons p rest ih =>
    obtain ⟨k', v'⟩ := p
    by_cases hk : k = k'
    · subst hk
      simpa [insertQ] using h
    · simp only [insertQ, if_neg hk, List.map_cons, List.mem_cons] at h ⊢
      rcases h with h | h
      · exact Or.inr (Or.inl h)
      · rcases ih h with h1 | h1
        · exact Or.inl h1
        · exact Or.inr (Or.inr h1)

theorem keys_eraseQ_subset {c k : String} {m : List (String × ℚ)}
    (h : c ∈ (eraseQ k m).map Prod.fst) : c ∈ m.map Prod.fst := by
  induction m with
  | nil => simp [eraseQ] at h
  | cons p rest ih =>
    obtain ⟨k', v'⟩ := p
    by_cases hk : k = k'
    · subst hk
      simp only [eraseQ, if_true, eq_self_iff_true] at h
      simp [h]
    · simp only [eraseQ, if_neg hk, List.map_cons, List.mem_cons] at h ⊢
      rcases h with h | h
      · exact Or.inl h
      · exact Or.inr (ih h)

theorem noDupKeys_insertQ (k : String) (v : ℚ) (m : List (String × ℚ))
    (hm : NoDupKeys m) : NoDupKeys (insertQ k v m) := by
  induction m with
  | nil => simp [NoDupKeys, insertQ]
  | cons p rest ih =>
    obtain ⟨k', v'⟩ := p
    unfold NoDupKeys at hm ⊢
    simp only [List.map_cons, List.nodup_cons] at hm
    by_cases h : k = k'
    · simp only [insertQ, if_pos h, List.map_cons, List.nodup_cons]
      exact ⟨hm.1, hm.2⟩
    · simp only [insertQ, if_neg h, List.map_cons, List.nodup_cons]
      refine ⟨?_, ih hm.2⟩
      intro hmem
      rcases mem_keys_insertQ hmem with h1 | h1
      · exact h h1.symm
      · exact hm.1 h1

theorem noDupKeys_eraseQ (k : String) (m : List (String × ℚ))
    (hm : NoDupKeys m) : NoDupKeys (eraseQ k m) := by
  induction m with
  | nil => simp [NoDupKeys, eraseQ]
  | cons p rest ih =>
    obtain ⟨k', v'⟩ := p
    unfold NoDupKeys at hm ⊢
    simp only [List.map_cons, List.nodup_cons] at hm
    by_cases h : k = k'
    · simp only [eraseQ, if_pos h]
      exact hm.2
    · simp only [eraseQ, if_neg h, List.map_cons, List.nodup_cons]
      exact ⟨fun hmem => hm.1 (keys_eraseQ_subset hmem), ih hm.2⟩

theorem lookupQ_mem (k : String) (v : ℚ) (m : List (String × ℚ))
    (h : lookupQ k m = some v) : (k, v) ∈ m := by
  induction m with
  | nil => simp [lookupQ] at h
  | cons p rest ih =>
    obtain ⟨k', v'⟩ := p
    by_cases hk : k = k'
    · subst hk
      simp [lookupQ] at h
      simp [h]
    · simp [lookupQ, hk] at h
      exact List.mem_cons_of_mem _ (ih h)

/-! ## Structural lemmas about one loop iteration -/

/-- Every iteration of the loop body changes the state in one of exactly
four ways: not at all; only the reference price of the processed coin;
a buy (recording holding, buy price and reference for the coin); or a
sell (deleting holding and buy price, resetting the reference). -/
theorem stepCoin_state_shape (ex : Exchange) (s : TradingState) (coin : String) (price : ℚ) :
    (stepCoin ex s coin price).state = s
    ∨ (stepCoin ex s coin price).state =
        { s with reference_prices := insertQ coin price s.reference_prices }
    ∨ (∃ amt, (stepCoin ex s coin price).state =
        ⟨insertQ coin amt s.holdings, insertQ coin price s.buy_prices,
         insertQ coin price s.reference_prices⟩)
    ∨ (stepCoin ex s coin price).state =
        ⟨eraseQ coin s.holdings, eraseQ coin s.buy_prices,
         insertQ coin price s.reference_prices⟩ := by
  simp only [stepCoin]
  split
  · exact Or.inr (Or.inl rfl)
  · split
    · split
      · exact Or.inl rfl
      · split
        · split
          · exact Or.inl rfl
          · split
            · exact Or.inl rfl
            · split
              · exact Or.inr (Or.inr (Or.inl ⟨_, rfl⟩))
              · exact Or.inl rfl
        · split
          · exact Or.inr (Or.inl rfl)
          · exact Or.inl rfl
    · split
      · exact Or.inl rfl
      · split
        · exact Or.inl rfl
        · split
          · split
            · exact Or.inr (Or.inr (Or.inr rfl))
            · exact Or.inl rfl
          · exact Or.inl rfl

/-- Locality: processing one coin never touches another coin's entries. -/
theorem stepCoin_lookup_other (ex : Exchange) (s : TradingState) (coin : String)
    (price : ℚ) (c : String) (hc : c ≠ coin) :
    lookupQ c (stepCoin ex s coin price).state.holdings = lookupQ c s.holdings
    ∧ lookupQ c (stepCoin ex s coin price).state.buy_prices = lookupQ c s.buy_prices
    ∧ lookupQ c (stepCoin ex s coin price).state.reference_prices =
        lookupQ c s.reference_prices := by
  rcases stepCoin_state_shape ex s coin price with h | h | ⟨amt, h⟩ | h <;>
    rw [h] <;>
    simp [lookupQ_insertQ_ne c coin _ _ hc, lookupQ_eraseQ_ne c coin _ hc]

/-- The two uncaught `ZeroDivisionError` sites divide by a recorded
reference price (line 93) or a recorded buy price (line 134): the error
implies one of those recorded values is zero. -/
theorem stepCoin_zeroDiv_source (ex : Exchange) (s : TradingState) (coin : String)
    (price : ℚ)
    (h : (stepCoin ex s coin price).error = some PyErr.zeroDivisionError) :
    lookupQ coin s.reference_prices = some 0 ∨ lookupQ coin s.buy_prices = some 0 := by
  revert h
  simp only [stepCoin]
  split
  · intro h
    simp at h
  · rename_i r href
    split
    · split
      · rename_i hr0
        intro _
        exact Or.inl (hr0 ▸ href)
      · split
        · split
          · intro h
            simp at h
          · split
            · intro h
              simp at h
            · split <;> (intro h; simp at h)
        · split <;> (intro h; simp at h)
    · split
      · intro h
        simp at h
      · rename_i b hbp
        split
        · rename_i hb0
          intro _
          exact Or.inr (hb0 ▸ hbp)
        · split
          · split <;> (intro h; simp at h)
          · intro h
            simp at h

/-- While a coin is flat (and stays flat through the iteration), its
reference price never increases. -/
theorem stepCoin_flat_ref_mono (ex : Exchange) (s : TradingState) (coin : String)
    (price r : ℚ)
    (href : lookupQ coin s.reference_prices = some r)
    (hflat : lookupQ coin s.holdings = none)
    (hafter : lookupQ coin (stepCoin ex s coin price).state.holdings = none) :
    ∃ r', lookupQ coin (stepCoin ex s coin price).state.reference_prices = some r'
      ∧ r' ≤ r := by
  revert hafter
  simp only [stepCoin, href, hflat]
  split
  · intro _
    exact ⟨r, href, le_refl r⟩
  · split
    · split
      · intro _
        exact ⟨r, href, le_refl r⟩
      · split
        · intro _
          exact ⟨r, href, le_refl r⟩
        · split
          · intro hafter
            rw [lookupQ_insertQ_self] at hafter
            simp at hafter
          · intro _
            exact ⟨r, href, le_refl r⟩
    · split
      · rename_i hlt
        intro _
        exact ⟨price, lookupQ_insertQ_self coin price s.reference_prices, le_of_lt hlt⟩
      · intro _
        exact ⟨r, href, le_refl r⟩

/-! ## The pairing invariant (spec §3) -/

/-- An asset has a recorded holding amount iff it has a recorded buy
price: every asset is either flat or holding, never partially. -/
def PairingInv (s : TradingState) : Prop :=
  ∀ c : String, lookupQ c s.holdings = none ↔ lookupQ c s.buy_prices = none

/-- One loop iteration preserves the pairing invariant and key
uniqueness of the two dicts. -/
theorem stepCoin_preserves_pairing (ex : Exchange) (s : TradingState) (coin : String)
    (price : ℚ) (hInv : PairingInv s) (hndH : NoDupKeys s.holdings)
    (hndB : NoDupKeys s.buy_prices) :
    PairingInv (stepCoin ex s coin price).state
    ∧ NoDupKeys (stepCoin ex s coin price).state.holdings
    ∧ NoDupKeys (stepCoin ex s coin price).state.buy_prices := by
  rcases stepCoin_state_shape ex s coin price with h | h | ⟨amt, h⟩ | h <;> rw [h]
  · exact ⟨hInv, hndH, hndB⟩
  · exact ⟨hInv, hndH, hndB⟩
  · refine ⟨?_, noDupKeys_insertQ coin amt s.holdings hndH,
      noDupKeys_insertQ coin price s.buy_prices hndB⟩
    intro c
    by_cases hc : c = coin
    · subst hc
      simp [lookupQ_insertQ_self]
    · simp only [lookupQ_insertQ_ne c coin _ _ hc]
      exact hInv c
  · refine ⟨?_, noDupKeys_eraseQ coin s.holdings hndH,
      noDupKeys_eraseQ coin s.buy_prices hndB⟩
    intro c
    by_cases hc : c = coin
    · subst hc
      simp [lookupQ_eraseQ_self _ s.holdings hndH,
        lookupQ_eraseQ_self _ s.buy_prices hndB]
    · simp only [lookupQ_eraseQ_ne c coin _ hc]
      exact hInv c

/-- The whole decision cycle preserves the pairing invariant and key
uniqueness, whether or not an exception aborts it midway. -/
theorem check_preserves_pairing (ex : Exchange) (prices : List (String × ℚ)) :
    ∀ s : TradingState, PairingInv s → NoDupKeys s.holdings → NoDupKeys s.buy_prices →
    PairingInv (check_trading_conditions ex s prices).state
    ∧ NoDupKeys (check_trading_conditions ex s prices).state.holdings
    ∧ NoDupKeys (check_trading_conditions ex s prices).state.buy_prices := by
  induction prices with
  | nil =>
    intro s hInv hndH hndB
    exact ⟨hInv, hndH, hndB⟩
  | cons cp rest ih =>
    intro s hInv hndH hndB
    obtain ⟨coin, price⟩ := cp
    obtain ⟨h1, h2, h3⟩ := stepCoin_preserves_pairing ex s coin price hInv hndH hndB
    rcases hstep : stepCoin ex s coin price with ⟨s1, ords1, e1⟩
    rw [hstep] at h1 h2 h3
    cases e1 with
    | none =>
      simpa [check_trading_conditions, hstep] using ih s1 h1 h2 h3
    | some e =>
      simpa [check_trading_conditions, hstep] using ⟨h1, h2, h3⟩

/-- Cycle-level locality: a coin that does not occur in the price dict
keeps all three of its entries untouched by the cycle. -/
theorem check_lookup_not_mem (ex : Exchange) (prices : List (String × ℚ)) :
    ∀ (s : TradingState) (c : String), c ∉ prices.map Prod.fst →
    lookupQ c (check_trading_conditions ex s prices).state.holdings = lookupQ c s.holdings
    ∧ lookupQ c (check_trading_conditions ex s prices).state.buy_prices =
        lookupQ c s.buy_prices
    ∧ lookupQ c (check_trading_conditions ex s prices).state.reference_prices =
        lookupQ c s.reference_prices := by
  induction prices with
  | nil =>
    intro s c _
    exact ⟨rfl, rfl, rfl⟩
  | cons cp rest ih =>
    intro s c hc
    obtain ⟨coin, price⟩ := cp
    simp only [List.map_cons, List.mem_cons] at hc
    push_neg at hc
    obtain ⟨g1, g2, g3⟩ := stepCoin_lookup_other ex s coin price c hc.1
    rcases hstep : stepCoin ex s coin price with ⟨s1, ords1, e1⟩
    rw [hstep] at g1 g2 g3
    cases e1 with
    | none =>
      obtain ⟨f1, f2, f3⟩ := ih s1 c hc.2
      simp only [check_trading_conditions, hstep]
      exact ⟨f1.trans g1, f2.trans g2, f3.trans g3⟩
    | some e =>
      simp only [check_trading_conditions, hstep]
      exact ⟨g1, g2, g3⟩

/-! ## Iterated flat cycles for one coin -/

/-- Run a sequence of decision cycles for a single coin, requiring that
no exception escapes and that the coin is still flat (no recorded
holding) after each cycle. `none` when a cycle errors or the coin ends
up holding. -/
def runFlat (ex : Exchange) (coin : String) : TradingState → List ℚ → Option TradingState
  | s, [] => some s
  | s, price :: rest =>
    match stepCoin ex s coin price with
    | ⟨s', _, none⟩ =>
      if lookupQ coin s'.holdings = none then runFlat ex coin s' rest else none
    | ⟨_, _, some _⟩ => none

/-- Across any run of cycles through which the coin stays flat, its
reference price is monotonically non-increasing. -/
theorem runFlat_ref_mono (ex : Exchange) (coin : String) (ps : List ℚ) :
    ∀ (s s' : TradingState) (r : ℚ),
    lookupQ coin s.reference_prices = some r →
    lookupQ coin s.holdings = none →
    runFlat ex coin s ps = some s' →
    ∃ r', lookupQ coin s'.reference_prices = some r' ∧ r' ≤ r := by
  induction ps with
  | nil =>
    intro s s' r href _ hrun
    simp only [runFlat, Option.some.injEq] at hrun
    exact ⟨r, hrun ▸ href, le_refl r⟩
  | cons price rest ih =>
    intro s s' r href hflat hrun
    rcases hstep : stepCoin ex s coin price with ⟨s1, ords1, e1⟩
    cases e1 with
    | some e =>
      simp [runFlat, hstep] at hrun
    | none =>
      simp only [runFlat, hstep] at hrun
      by_cases hafter : lookupQ coin s1.holdings = none
      · rw [if_pos hafter] at hrun
        obtain ⟨r1, hr1, hr1le⟩ := stepCoin_flat_ref_mono ex s coin price r href hflat
          (by rw [hstep]; exact hafter)
        rw [hstep] at hr1
        obtain ⟨r', hr', hr'le⟩ := ih s1 s' r1 hr1 hafter hrun
        exact ⟨r', hr', hr'le.trans hr1le⟩
      · rw [if_neg hafter] at hrun
        simp at hrun

/-! ## No division by zero escapes when recorded prices are nonzero -/

/-- Generalised induction step for the totality claim: if every coin
still to be processed has a nonzero recorded reference price and a
nonzero recorded buy price (when recorded at all), and the price dict
has no duplicate key, then no `ZeroDivisionError` escapes the cycle. -/
theorem check_no_zeroDiv_aux (ex : Exchange) (prices : List (String × ℚ)) :
    ∀ s : TradingState,
    (prices.map Prod.fst).Nodup →
    (∀ cp ∈ prices, lookupQ cp.1 s.reference_prices ≠ some 0) →
    (∀ cp ∈ prices, lookupQ cp.1 s.buy_prices ≠ some 0) →
    (check_trading_conditions ex s prices).error ≠ some PyErr.zeroDivisionError := by
  induction prices with
  | nil =>
    intro s _ _ _
    simp [check_trading_conditions]
  | cons cp rest ih =>
    intro s hnd href hbp
    obtain ⟨coin, price⟩ := cp
    simp only [List.map_cons, List.nodup_cons] at hnd
    rcases hstep : stepCoin ex s coin price with ⟨s1, ords1, e1⟩
    cases e1 with
    | some e =>
      simp only [check_trading_conditions, hstep]
      intro hcontra
      simp only [Option.some.injEq] at hcontra
      subst hcontra
      have := stepCoin_zeroDiv_source ex s coin price (by rw [hstep])
      rcases this with h | h
      · exact href (coin, price) (List.mem_cons_self _ _) h
      · exact hbp (coin, price) (List.mem_cons_self _ _) h
    | none =>
      simp only [check_trading_conditions, hstep]
      refine ih s1 hnd.2 ?_ ?_
      · intro dp hdp
        have hne : dp.1 ≠ coin := by
          intro hcontra
          exact hnd.1 (hcontra ▸ List.mem_map_of_mem Prod.fst hdp)
        obtain ⟨_, _, g3⟩ := stepCoin_lookup_other ex s coin price dp.1 hne
        rw [hstep] at g3
        rw [g3]
        exact href dp (List.mem_cons_of_mem _ hdp)
      · intro dp hdp
        have hne : dp.1 ≠ coin := by
          intro hcontra
          exact hnd.1 (hcontra ▸ List.mem_map_of_mem Prod.fst hdp)
        obtain ⟨_, g2, _⟩ := stepCoin_lookup_other ex s coin price dp.1 hne
        rw [hstep] at g2
        rw [g2]
        exact hbp dp (List.mem_cons_of_mem _ hdp)

/-! ## Round-trip of the persisted document -/

theorem decEntries_map_num (m : List (String × ℚ)) :
    decEntries (m.map fun p => (p.1, Json.num p.2)) = some m := by
  induction m with
  | nil => rfl
  | cons p rest ih =>
    obtain ⟨k, v⟩ := p
    simp only [List.map_cons, decEntries, ih]

theorem decMap_encMap (m : List (String × ℚ)) : decMap (encMap m) = some m := by
  simp only [encMap, decMap, decEntries_map_num]

/-! ## Concrete exchange oracles used in witness evaluations -/

/-- An exchange on which every market lookup and every order succeeds,
with a non-integer advertised precision (so the code falls back to 8). -/
def oracleAllOk : Exchange :=
  { marketLookupOk := fun _ => true, precisionOf := fun _ => .nonInt,
    buyOk := fun _ _ => true, sellOk := fun _ _ => true }

/-- An exchange on which market metadata loads but every order is
rejected. -/
def oracleOrdersFail : Exchange :=
  { marketLookupOk := fun _ => true, precisionOf := fun _ => .nonInt,
    buyOk := fun _ _ => false, sellOk := fun _ _ => false }

/-- An exchange on which `load_markets()` itself raises. -/
def oracleMarketDown : Exchange :=
  { marketLookupOk := fun _ => false, precisionOf := fun _ => .nonInt,
    buyOk := fun _ _ => true, sellOk := fun _ _ => true }

/-! ## The claims -/

/-- C1: for an asset in Flat state (no recorded holding) with an
existing reference price, if the observed price satisfies
`(price - referencePrice) / referencePrice ≤ -dropThreshold` and the buy
order succeeds (the code can only place it when `price ≠ 0` and the
market-metadata lookup succeeds, and the exchange accepts it), the asset
transitions to Holding with `buyPrice = price`, `holdingAmount` equal to
the executed amount, and `referencePrice` reset to `price`. -/
theorem flat_drop_buy_success (ex : Exchange) (s : TradingState) (coin : String)
    (price r : ℚ)
    (href : lookupQ coin s.reference_prices = some r)
    (hflat : lookupQ coin s.holdings = none)
    (hdrop : (price - r) / r ≤ -PRICE_DROP_THRESHOLD)
    (hp : price ≠ 0)
    (hmkt : ex.marketLookupOk coin = true)
    (hbuy : ex.buyOk coin (round_amount (AMOUNT_TO_BUY / price)
      (amountPrecision (ex.precisionOf coin))) = true) :
    stepCoin ex s coin price =
      ⟨⟨insertQ coin (round_amount (AMOUNT_TO_BUY / price)
          (amountPrecision (ex.precisionOf coin))) s.holdings,
        insertQ coin price s.buy_prices,
        insertQ coin price s.reference_prices⟩,
       [Order.buy coin (round_amount (AMOUNT_TO_BUY / price)
          (amountPrecision (ex.precisionOf coin)))], none⟩
    ∧ lookupQ coin (stepCoin ex s coin price).state.holdings =
        some (round_amount (AMOUNT_TO_BUY / price) (amountPrecision (ex.precisionOf coin)))
    ∧ lookupQ coin (stepCoin ex s coin price).state.buy_prices = some price
    ∧ lookupQ coin (stepCoin ex s coin price).state.reference_prices = some price := by
  have hr0 : r ≠ 0 := by
    rintro rfl
    rw [div_zero] at hdrop
    norm_num [PRICE_DROP_THRESHOLD] at hdrop
  have hstep : stepCoin ex s coin price =
      ⟨⟨insertQ coin (round_amount (AMOUNT_TO_BUY / price)
          (amountPrecision (ex.precisionOf coin))) s.holdings,
        insertQ coin price s.buy_prices,
        insertQ coin price s.reference_prices⟩,
       [Order.buy coin (round_amount (AMOUNT_TO_BUY / price)
          (amountPrecision (ex.precisionOf coin)))], none⟩ := by
    simp [stepCoin, href, hflat, hr0, hdrop, hp, hmkt, hbuy]
  refine ⟨hstep, ?_, ?_, ?_⟩ <;> rw [hstep] <;> simp [lookupQ_insertQ_self]

/-- C1 witness: a concrete buy. Reference price 100 for BTC, price 95
(a 5% drop), every exchange call succeeds; the bot buys
`round_amount (5 / 95) 8 = 5263158 / 10^8` BTC and records it. -/
theorem flat_drop_buy_success_witness :
    stepCoin oracleAllOk ⟨[], [], [("BTC", 100)]⟩ "BTC" 95 =
      ⟨⟨[("BTC", round_amount (5 / 95) 8)], [("BTC", 95)], [("BTC", 95)]⟩,
       [Order.buy "BTC" (round_amount (5 / 95) 8)], none⟩ := by
  have h := flat_drop_buy_success oracleAllOk ⟨[], [], [("BTC", 100)]⟩ "BTC" 95 100
    (by simp [lookupQ]) (by simp [lookupQ]) (by norm_num [PRICE_DROP_THRESHOLD])
    (by norm_num) rfl rfl
  rw [h.1]
  simp [insertQ, oracleAllOk, AMOUNT_TO_BUY, amountPrecision]

/-- C8: for an asset with no prior reference price, the first cycle in
which a price is observed records that price as reference price and
places no order, leaving holding amount and buy price absent. -/
theorem first_observation (ex : Exchange) (s : TradingState) (coin : String) (price : ℚ)
    (href : lookupQ coin s.reference_prices = none)
    (hh : lookupQ coin s.holdings = none)
    (hb : lookupQ coin s.buy_prices = none) :
    stepCoin ex s coin price =
      ⟨{ s with reference_prices := insertQ coin price s.reference_prices }, [], none⟩
    ∧ lookupQ coin (stepCoin ex s coin price).state.reference_prices = some price
    ∧ lookupQ coin (stepCoin ex s coin price).state.holdings = none
    ∧ lookupQ coin (stepCoin ex s coin price).state.buy_prices = none := by
  have hstep : stepCoin ex s coin price =
      ⟨{ s with reference_prices := insertQ coin price s.reference_prices }, [], none⟩ := by
    simp [stepCoin, href]
  refine ⟨hstep, ?_, ?_, ?_⟩ <;> rw [hstep]
  · exact lookupQ_insertQ_self coin price s.reference_prices
  · exact hh
  · exact hb

/-- C8 witness: first observation of TON at price 3 seeds its reference
price and trades nothing. -/
theorem first_observation_witness :
    stepCoin oracleAllOk ⟨[], [], []⟩ "TON" 3 =
      ⟨⟨[], [], [("TON", 3)]⟩, [], none⟩ := by
  have h := first_observation oracleAllOk ⟨[], [], []⟩ "TON" 3 rfl rfl rfl
  rw [h.1]
  simp [insertQ]

/-- C9: saving the state document and then loading it yields a state
identical to the original for every asset — load after save is the
identity on the decision state. -/
theorem save_load_roundtrip (s : TradingState) :
    load_state (some (save_state s)) = some s := by
  obtain ⟨h, b, r⟩ := s
  simp [load_state, save_state, jsonLookup, decMap_encMap]

/-- C2: for an asset in Holding state, if the observed price satisfies
`(price - buyPrice) / buyPrice ≥ riseThreshold` — boundary included, as
witnessed by buy price 95, threshold 10%, price 104.50 selling while
104.49 (second conjunct) does not — and the sell order succeeds, the
entire recorded holding amount is sold, holding amount and buy price are
removed (Flat), and the reference price is reset to the sale price. -/
theorem holding_rise_sell_success :
    (∀ (ex : Exchange) (s : TradingState) (coin : String) (price r a b : ℚ),
      lookupQ coin s.reference_prices = some r →
      lookupQ coin s.holdings = some a →
      lookupQ coin s.buy_prices = some b →
      (price - b) / b ≥ PRICE_RISE_THRESHOLD →
      ex.sellOk coin a = true →
      NoDupKeys s.holdings → NoDupKeys s.buy_prices →
      stepCoin ex s coin price =
        ⟨⟨eraseQ coin s.holdings, eraseQ coin s.buy_prices,
          insertQ coin price s.reference_prices⟩, [Order.sell coin a], none⟩
      ∧ lookupQ coin (stepCoin ex s coin price).state.holdings = none
      ∧ lookupQ coin (stepCoin ex s coin price).state.buy_prices = none
      ∧ lookupQ coin (stepCoin ex s coin price).state.reference_prices = some price)
    ∧ stepCoin oracleAllOk ⟨[("BTC", 2)], [("BTC", 95)], [("BTC", 95)]⟩ "BTC" (10449 / 100) =
        ⟨⟨[("BTC", 2)], [("BTC", 95)], [("BTC", 95)]⟩, [], none⟩
    ∧ ¬((10449 / 100 - 95) / 95 ≥ PRICE_RISE_THRESHOLD)
    ∧ (1045 / 10 - 95) / 95 ≥ PRICE_RISE_THRESHOLD := by
  refine ⟨?_, ?_, ?_, ?_⟩
  · intro ex s coin price r a b href hhold hbp hrise hsell hndH hndB
    have hb0 : b ≠ 0 := by
      rintro rfl
      rw [div_zero] at hrise
      norm_num [PRICE_RISE_THRESHOLD] at hrise
    have hstep : stepCoin ex s coin price =
        ⟨⟨eraseQ coin s.holdings, eraseQ coin s.buy_prices,
          insertQ coin price s.reference_prices⟩, [Order.sell coin a], none⟩ := by
      simp [stepCoin, href, hhold, hbp, hb0, hrise, hsell]
    refine ⟨hstep, ?_, ?_, ?_⟩ <;> rw [hstep]
    · exact lookupQ_eraseQ_self coin s.holdings hndH
    · exact lookupQ_eraseQ_self coin s.buy_prices hndB
    · exact lookupQ_insertQ_self coin price s.reference_prices
  · norm_num [stepCoin, lookupQ, PRICE_RISE_THRESHOLD, PRICE_DROP_THRESHOLD]
  · norm_num [PRICE_RISE_THRESHOLD]
  · norm_num [PRICE_RISE_THRESHOLD]

/-- C2 witness: the boundary sell. Holding 2 BTC bought at 95, price
104.50 arrives (exactly +10%), the sell succeeds: state becomes Flat
with the reference reset to 104.50. -/
theorem holding_rise_sell_success_witness :
    stepCoin oracleAllOk ⟨[("BTC", 2)], [("BTC", 95)], [("BTC", 95)]⟩ "BTC" (1045 / 10) =
      ⟨⟨[], [], [("BTC", 1045 / 10)]⟩, [Order.sell "BTC" 2], none⟩ := by
  have h := holding_rise_sell_success.1 oracleAllOk
    ⟨[("BTC", 2)], [("BTC", 95)], [("BTC", 95)]⟩ "BTC" (1045 / 10) 95 2 95
    (by simp [lookupQ]) (by simp [lookupQ]) (by simp [lookupQ])
    (by norm_num [PRICE_RISE_THRESHOLD]) rfl
    (by simp [NoDupKeys]) (by simp [NoDupKeys])
  rw [h.1]
  simp [eraseQ, insertQ]

/-- C3: a failed order leaves the asset's recorded state exactly as it
was. First conjunct: a submitted buy the exchange rejects; second: a buy
attempt that dies in the market-metadata lookup (no order submitted);
third: a submitted sell the exchange rejects. In each case the state is
returned unchanged. -/
theorem failed_order_state_unchanged :
    (∀ (ex : Exchange) (s : TradingState) (coin : String) (price r : ℚ),
      lookupQ coin s.reference_prices = some r →
      lookupQ coin s.holdings = none →
      (price - r) / r ≤ -PRICE_DROP_THRESHOLD →
      price ≠ 0 →
      ex.marketLookupOk coin = true →
      ex.buyOk coin (round_amount (AMOUNT_TO_BUY / price)
        (amountPrecision (ex.precisionOf coin))) = false →
      stepCoin ex s coin price =
        ⟨s, [Order.buy coin (round_amount (AMOUNT_TO_BUY / price)
          (amountPrecision (ex.precisionOf coin)))], none⟩)
    ∧ (∀ (ex : Exchange) (s : TradingState) (coin : String) (price r : ℚ),
      lookupQ coin s.reference_prices = some r →
      lookupQ coin s.holdings = none →
      (price - r) / r ≤ -PRICE_DROP_THRESHOLD →
      price ≠ 0 →
      ex.marketLookupOk coin = false →
      stepCoin ex s coin price = ⟨s, [], none⟩)
    ∧ (∀ (ex : Exchange) (s : TradingState) (coin : String) (price r a b : ℚ),
      lookupQ coin s.reference_prices = some r →
      lookupQ coin s.holdings = some a →
      lookupQ coin s.buy_prices = some b →
      (price - b) / b ≥ PRICE_RISE_THRESHOLD →
      ex.sellOk coin a = false →
      stepCoin ex s coin price = ⟨s, [Order.sell coin a], none⟩) := by
  refine ⟨?_, ?_, ?_⟩
  · intro ex s coin price r href hflat hdrop hp hmkt hbuy
    have hr0 : r ≠ 0 := by
      rintro rfl
      rw [div_zero] at hdrop
      norm_num [PRICE_DROP_THRESHOLD] at hdrop
    simp [stepCoin, href, hflat, hr0, hdrop, hp, hmkt, hbuy]
  · intro ex s coin price r href hflat hdrop hp hmkt
    have hr0 : r ≠ 0 := by
      rintro rfl
      rw [div_zero] at hdrop
      norm_num [PRICE_DROP_THRESHOLD] at hdrop
    simp [stepCoin, href, hflat, hr0, hdrop, hp, hmkt]
  · intro ex s coin price r a b href hhold hbp hrise hsell
    have hb0 : b ≠ 0 := by
      rintro rfl
      rw [div_zero] at hrise
      norm_num [PRICE_RISE_THRESHOLD] at hrise
    simp [stepCoin, href, hhold, hbp, hb0, hrise, hsell]

/-- C3 witness: a rejected buy (5% dip from 100), a buy attempt whose
market lookup raises, and a rejected sell (+10% from 95) each leave the
state exactly as found. -/
theorem failed_order_state_unchanged_witness :
    stepCoin oracleOrdersFail ⟨[], [], [("BTC", 100)]⟩ "BTC" 95 =
      ⟨⟨[], [], [("BTC", 100)]⟩, [Order.buy "BTC" (round_amount (5 / 95) 8)], none⟩
    ∧ stepCoin oracleMarketDown ⟨[], [], [("BTC", 100)]⟩ "BTC" 95 =
      ⟨⟨[], [], [("BTC", 100)]⟩, [], none⟩
    ∧ stepCoin oracleOrdersFail ⟨[("BTC", 2)], [("BTC", 95)], [("BTC", 95)]⟩ "BTC"
        (1045 / 10) =
      ⟨⟨[("BTC", 2)], [("BTC", 95)], [("BTC", 95)]⟩, [Order.sell "BTC" 2], none⟩ := by
  refine ⟨?_, ?_, ?_⟩
  · have h := failed_order_state_unchanged.1 oracleOrdersFail ⟨[], [], [("BTC", 100)]⟩
      "BTC" 95 100 (by simp [lookupQ]) rfl (by norm_num [PRICE_DROP_THRESHOLD])
      (by norm_num) rfl rfl
    rw [h]
    simp [oracleOrdersFail, AMOUNT_TO_BUY, amountPrecision]
  · exact failed_order_state_unchanged.2.1 oracleMarketDown ⟨[], [], [("BTC", 100)]⟩
      "BTC" 95 100 (by simp [lookupQ]) rfl (by norm_num [PRICE_DROP_THRESHOLD])
      (by norm_num) rfl
  · exact failed_order_state_unchanged.2.2 oracleOrdersFail
      ⟨[("BTC", 2)], [("BTC", 95)], [("BTC", 95)]⟩ "BTC" (1045 / 10) 95 2 95
      (by simp [lookupQ]) (by simp [lookupQ]) (by simp [lookupQ])
      (by norm_num [PRICE_RISE_THRESHOLD]) rfl

/-- C4: the pairing invariant — a recorded holding amount iff a recorded
buy price — is preserved by every decision cycle, from any state
satisfying it (key uniqueness being inherent to the Python dicts the
lists model). -/
theorem pairing_invariant_preserved (ex : Exchange) (s : TradingState)
    (prices : List (String × ℚ)) (hInv : PairingInv s)
    (hndH : NoDupKeys s.holdings) (hndB : NoDupKeys s.buy_prices) :
    PairingInv (check_trading_conditions ex s prices).state :=
  (check_preserves_pairing ex prices s hInv hndH hndB).1

/-- C4 witness: one cycle from an empty flat state through a successful
buy keeps the invariant. -/
theorem pairing_invariant_preserved_witness :
    PairingInv (check_trading_conditions oracleAllOk ⟨[], [], [("BTC", 100)]⟩
      [("BTC", 95)]).state := by
  apply pairing_invariant_preserved
  · intro c
    simp [lookupQ]
  · simp [NoDupKeys]
  · simp [NoDupKeys]

/-- C5: first conjunct — in Flat state with the price below the
reference but above the drop trigger (`r * (1 - dropThreshold) < price`),
the cycle only ratchets the reference down to the price and places no
order. Second conjunct — across any run of cycles through which the
asset stays Flat, the reference price is monotonically non-increasing. -/
theorem flat_ratchet_and_monotonicity :
    (∀ (ex : Exchange) (s : TradingState) (coin : String) (price r : ℚ),
      lookupQ coin s.reference_prices = some r →
      lookupQ coin s.holdings = none →
      r * (1 - PRICE_DROP_THRESHOLD) < price →
      price < r →
      stepCoin ex s coin price =
        ⟨{ s with reference_prices := insertQ coin price s.reference_prices }, [], none⟩
      ∧ lookupQ coin (stepCoin ex s coin price).state.reference_prices = some price)
    ∧ (∀ (ex : Exchange) (coin : String) (ps : List ℚ) (s s' : TradingState) (r : ℚ),
      lookupQ coin s.reference_prices = some r →
      lookupQ coin s.holdings = none →
      runFlat ex coin s ps = some s' →
      ∃ r', lookupQ coin s'.reference_prices = some r' ∧ r' ≤ r) := by
  constructor
  · intro ex s coin price r href hflat htrig hlt
    have hrpos : 0 < r := by
      unfold PRICE_DROP_THRESHOLD at htrig
      nlinarith
    have hr0 : r ≠ 0 := ne_of_gt hrpos
    have hnd : ¬((price - r) / r ≤ -PRICE_DROP_THRESHOLD) := by
      rw [not_le, lt_div_iff₀ hrpos]
      unfold PRICE_DROP_THRESHOLD at htrig ⊢
      linarith
    have hstep : stepCoin ex s coin price =
        ⟨{ s with reference_prices := insertQ coin price s.reference_prices },
         [], none⟩ := by
      simp [stepCoin, href, hflat, hr0, hnd, hlt]
    refine ⟨hstep, ?_⟩
    rw [hstep]
    exact lookupQ_insertQ_self coin price s.reference_prices
  · exact fun ex coin ps s s' r href hflat hrun =>
      runFlat_ref_mono ex coin ps s s' r href hflat hrun

/-- C5 witness: reference 100, price 95.01 (below the reference, above
the 5% trigger at 95) ratchets the reference to 95.01 with no order; a
one-cycle flat run from reference 100 ends with a reference ≤ 100. -/
theorem flat_ratchet_and_monotonicity_witness :
    stepCoin oracleAllOk ⟨[], [], [("BTC", 100)]⟩ "BTC" (9501 / 100) =
      ⟨⟨[], [], [("BTC", 9501 / 100)]⟩, [], none⟩
    ∧ ∃ r', lookupQ "BTC"
        (⟨[], [], [("BTC", 9501 / 100)]⟩ : TradingState).reference_prices = some r'
        ∧ r' ≤ 100 := by
  constructor
  · have h := flat_ratchet_and_monotonicity.1 oracleAllOk ⟨[], [], [("BTC", 100)]⟩
      "BTC" (9501 / 100) 100 (by simp [lookupQ]) rfl
      (by norm_num [PRICE_DROP_THRESHOLD]) (by norm_num)
    rw [h.1]
    simp [insertQ]
  · exact flat_ratchet_and_monotonicity.2 oracleAllOk "BTC" [9501 / 100]
      ⟨[], [], [("BTC", 100)]⟩ ⟨[], [], [("BTC", 9501 / 100)]⟩ 100
      (by simp [lookupQ]) rfl
      (by norm_num [runFlat, stepCoin, lookupQ, insertQ, PRICE_DROP_THRESHOLD])

/-- C6: for every triggered buy, the submitted order amount is
`fixedNotional / price` rounded half-up at the exchange's amount
precision (first conjunct, whatever the order's fate); `round_amount` is
`floor(x * 10^p + 1/2) / 10^p` (second conjunct); the precision used is
the exchange's integer precision with fallback 8 when the advertised
value is not an integer (third and fourth conjuncts); and
`5 / 30000` at precision 4 rounds to `0.0002` (fifth conjunct). -/
theorem buy_amount_rounding :
    (∀ (ex : Exchange) (s : TradingState) (coin : String) (price r : ℚ),
      lookupQ coin s.reference_prices = some r →
      lookupQ coin s.holdings = none →
      (price - r) / r ≤ -PRICE_DROP_THRESHOLD →
      price ≠ 0 →
      ex.marketLookupOk coin = true →
      (stepCoin ex s coin price).orders =
        [Order.buy coin (round_amount (AMOUNT_TO_BUY / price)
          (amountPrecision (ex.precisionOf coin)))])
    ∧ (∀ (x : ℚ) (p : ℤ), round_amount x p = (⌊x * 10 ^ p + 1 / 2⌋ : ℚ) / 10 ^ p)
    ∧ (∀ p : ℤ, amountPrecision (.intVal p) = p)
    ∧ amountPrecision .nonInt = 8
    ∧ round_amount (5 / 30000) 4 = 2 / 10000 := by
  refine ⟨?_, fun x p => rfl, fun p => rfl, rfl, by norm_num [round_amount]⟩
  intro ex s coin price r href hflat hdrop hp hmkt
  have hr0 : r ≠ 0 := by
    rintro rfl
    rw [div_zero] at hdrop
    norm_num [PRICE_DROP_THRESHOLD] at hdrop
  cases hb : ex.buyOk coin (round_amount (AMOUNT_TO_BUY / price)
      (amountPrecision (ex.precisionOf coin))) <;>
    simp [stepCoin, href, hflat, hr0, hdrop, hp, hmkt, hb]

/-- C6 witness: a 6.7% dip of BTC from 30000 to 28000 submits a buy of
`round_amount (5 / 28000) 8` coins. -/
theorem buy_amount_rounding_witness :
    (stepCoin oracleAllOk ⟨[], [], [("BTC", 30000)]⟩ "BTC" 28000).orders =
      [Order.buy "BTC" (round_amount (5 / 28000) 8)] := by
  have h := buy_amount_rounding.1 oracleAllOk ⟨[], [], [("BTC", 30000)]⟩ "BTC" 28000 30000
    (by simp [lookupQ]) rfl (by norm_num [PRICE_DROP_THRESHOLD]) (by norm_num) rfl
  rw [h]
  simp [oracleAllOk, AMOUNT_TO_BUY, amountPrecision]

/-- The ticker outage used in the C7 witness: BTC's fetch raises, every
other coin returns price 5. -/
def fetchBtcDown : String → Option ℚ :=
  fun c => if c = "BTC" then none else some 5

/-- C7: a price-fetch failure for one asset omits exactly that asset
from the cycle's price map (first conjunct), every successfully fetched
asset still appears (second conjunct), and an asset absent from the
price map has all three of its recorded entries left unchanged by the
cycle (third conjunct) — one asset's failure never aborts the batch. -/
theorem fetch_failure_isolated :
    (∀ (fetch : String → Option ℚ) (coins : List String) (coin : String),
      fetch coin = none →
      coin ∉ (get_current_prices fetch coins).map Prod.fst)
    ∧ (∀ (fetch : String → Option ℚ) (coins : List String) (coin : String) (p : ℚ),
      coin ∈ coins → fetch coin = some p →
      (coin, p) ∈ get_current_prices fetch coins)
    ∧ (∀ (ex : Exchange) (s : TradingState) (prices : List (String × ℚ)) (coin : String),
      coin ∉ prices.map Prod.fst →
      lookupQ coin (check_trading_conditions ex s prices).state.holdings =
          lookupQ coin s.holdings
      ∧ lookupQ coin (check_trading_conditions ex s prices).state.buy_prices =
          lookupQ coin s.buy_prices
      ∧ lookupQ coin (check_trading_conditions ex s prices).state.reference_prices =
          lookupQ coin s.reference_prices) := by
  refine ⟨?_, ?_, ?_⟩
  · intro fetch coins coin hnone
    induction coins with
    | nil => simp [get_current_prices]
    | cons c rest ih =>
      by_cases hc : c = coin
      · subst hc
        simpa [get_current_prices, hnone] using ih
      · cases hf : fetch c with
        | none => simpa [get_current_prices, hf] using ih
        | some q =>
          simp only [get_current_prices, hf, List.map_cons, List.mem_cons]
          push_neg
          exact ⟨fun h => hc h.symm, ih⟩
  · intro fetch coins coin p hmem hsome
    induction coins with
    | nil => simp at hmem
    | cons c rest ih =>
      rcases List.mem_cons.mp hmem with h | h
      · subst h
        simp [get_current_prices, hsome]
      · cases hf : fetch c with
        | none => simpa [get_current_prices, hf] using ih h
        | some q =>
          simp only [get_current_prices, hf, List.mem_cons]
          exact Or.inr (ih h)
  · intro ex s prices coin h
    exact check_lookup_not_mem ex prices s coin h

/-- C7 witness: with BTC's ticker down, BTC is omitted from the fetched
price map while ETH still appears; a cycle whose price map lacks BTC
leaves BTC's reference price untouched. -/
theorem fetch_failure_isolated_witness :
    "BTC" ∉ (get_current_prices fetchBtcDown ["BTC", "ETH"]).map Prod.fst
    ∧ ("ETH", 5) ∈ get_current_prices fetchBtcDown ["BTC", "ETH"]
    ∧ lookupQ "BTC" (check_trading_conditions oracleAllOk ⟨[], [], [("BTC", 100)]⟩
        [("ETH", 5)]).state.reference_prices =
      lookupQ "BTC" (⟨[], [], [("BTC", 100)]⟩ : TradingState).reference_prices := by
  refine ⟨fetch_failure_isolated.1 fetchBtcDown ["BTC", "ETH"] "BTC" rfl,
    fetch_failure_isolated.2.1 fetchBtcDown ["BTC", "ETH"] "ETH" 5 (by simp)
      (by simp [fetchBtcDown]),
    (fetch_failure_isolated.2.2 oracleAllOk ⟨[], [], [("BTC", 100)]⟩ [("ETH", 5)] "BTC"
      (by simp)).2.2⟩

/-- C10: first conjunct — when every recorded reference price and buy
price is nonzero, the decision cycle never lets a `ZeroDivisionError`
escape (the two delta computations divide only by those recorded
values). Second and third conjuncts — the nonzero precondition is
necessary: a zero observed price is accepted and stored as the reference
price, and the next cycle's delta division then raises. -/
theorem no_zero_division_escape :
    (∀ (ex : Exchange) (s : TradingState) (prices : List (String × ℚ)),
      (prices.map Prod.fst).Nodup →
      (∀ p ∈ s.reference_prices, p.2 ≠ 0) →
      (∀ p ∈ s.buy_prices, p.2 ≠ 0) →
      (check_trading_conditions ex s prices).error ≠ some PyErr.zeroDivisionError)
    ∧ check_trading_conditions oracleAllOk ⟨[], [], []⟩ [("BTC", 0)] =
        ⟨⟨[], [], [("BTC", 0)]⟩, [], none⟩
    ∧ (check_trading_conditions oracleAllOk ⟨[], [], [("BTC", 0)]⟩ [("BTC", 7)]).error =
        some PyErr.zeroDivisionError := by
  refine ⟨?_, ?_, ?_⟩
  · intro ex s prices hnd href hbp
    refine check_no_zeroDiv_aux ex prices s hnd ?_ ?_
    · intro cp _ hcontra
      exact href _ (lookupQ_mem cp.1 0 s.reference_prices hcontra) rfl
    · intro cp _ hcontra
      exact hbp _ (lookupQ_mem cp.1 0 s.buy_prices hcontra) rfl
  · norm_num [check_trading_conditions, stepCoin, lookupQ, insertQ]
  · norm_num [check_trading_conditions, stepCoin, lookupQ, insertQ,
      PRICE_DROP_THRESHOLD]

/-- C10 witness: a cycle over a one-coin price map from a state whose
only recorded reference price is 100 cannot end in a division-by-zero
error. -/
theorem no_zero_division_escape_witness :
    (check_trading_conditions oracleAllOk ⟨[], [], [("BTC", 100)]⟩ [("BTC", 95)]).error ≠
      some PyErr.zeroDivisionError := by
  apply no_zero_division_escape.1
  · simp
  · intro p hp
    simp only [List.mem_singleton] at hp
    subst hp
    norm_num
  · intro p hp
    simp at hp

end Bot
